import Mathlib

/-! Shallow embedding of the wax-format archive builder and reader, from
crates/wax-builder/src/main.rs and crates/wax-core/src/lib.rs,
crates/wax-core/src/reader.rs.

Bytes are modelled as `Nat` (values < 256 where it matters), file contents as
lists of bytes, and the zstd compression codec as a pluggable pair
`encode : List Nat → List Nat` and `decode : List Nat → Option (List Nat)`,
matching the spec's treatment of the codec as an external byte-stream
transform.  The embedded SQLite index is modelled by its logical content: the
list of inserted rows in rowid order; each SQL statement appearing in the
source is translated to its semantics on that row list. -/

namespace Wax

/-- Magic bytes of the format: the constant `WAX_MAGIC` in wax-core/src/lib.rs. -/
def waxMagic : List Nat := [0x57, 0x41, 0x58, 0x31]

/-- The archive header record, `WaxHeader` in wax-core/src/lib.rs. -/
structure WaxHeader where
  magic : List Nat
  version : Nat
  uuid : List Nat
  index_offset : Nat
  index_length : Nat
  compression_type : Nat
  padding : List Nat
  deriving DecidableEq, Repr

/-- Little-endian byte encoding of `n` in `w` bytes. -/
def leBytes (w n : Nat) : List Nat := (List.range w).map fun i => n / 256 ^ i % 256

/-- Little-endian value of a byte list. -/
def leNat : List Nat → Nat
  | [] => 0
  | b :: bs => b % 256 + 256 * leNat bs

/-- The `zerocopy::AsBytes` layout of `WaxHeader`: repr(C), 64 bytes, all
integers little-endian (magic 4, version 4, uuid 16, index_offset 8,
index_length 8, compression_type 1, padding 23). -/
def encodeHeader (h : WaxHeader) : List Nat :=
  h.magic ++ leBytes 4 h.version ++ h.uuid ++ leBytes 8 h.index_offset ++
    leBytes 8 h.index_length ++ [h.compression_type % 256] ++ h.padding

/-- The `zerocopy::FromBytes` reading of a `WaxHeader` from a 64-byte buffer. -/
def decodeHeader (b : List Nat) : WaxHeader where
  magic := b.take 4
  version := leNat ((b.drop 4).take 4)
  uuid := (b.drop 8).take 16
  index_offset := leNat ((b.drop 24).take 8)
  index_length := leNat ((b.drop 32).take 8)
  compression_type := (b.drop 40).headD 0
  padding := (b.drop 41).take 23

/-- One row of the `files` table created by build_archive.  The `id INTEGER
PRIMARY KEY` column is the implicit rowid; rows are kept in insertion order,
which is rowid order.  The schema has no uniqueness constraint on `path`, and
`mime_type` is a nullable text column, hence `Option String`. -/
structure IndexRow where
  path : String
  mime_type : Option String
  blob_offset : Nat
  blob_length : Nat
  original_size : Nat
  deriving DecidableEq, Repr

/-- The generic fallback content type (mime_guess's octet-stream constant). -/
def octetStream : String := "application/octet-stream"

/-- The fallback string used by list_files for a NULL mime_type column. -/
def unknownMime : String := "unknown"

/-- Path normalization in build_archive: the relative path with every
backslash replaced by a forward slash.  With a one-character pattern and a
one-character replacement, `str::replace` is exactly a character map. -/
def normalizePath (s : String) : String :=
  ⟨s.data.map fun c => if c = '\\' then '/' else c⟩

/-- `mime_guess::from_path(&path).first_or_octet_stream()`: the guesser is an
external collaborator, passed in as a function; `first_or_octet_stream`
substitutes the octet-stream type when no guess is produced. -/
def mimeFor (guess : String → Option String) (p : String) : String :=
  (guess p).getD octetStream

/-- Accumulated result of the blob-writing loop of build_archive: the bytes
written after the 64-byte placeholder, the rows inserted into the index, and
the final value of `current_offset` (which becomes `index_offset`). -/
structure BuildOut where
  blobs : List Nat
  rows : List IndexRow
  indexOffset : Nat
  deriving DecidableEq, Repr

def U64 : Nat := 2 ^ 64

/-- The per-file loop of build_archive (main.rs lines 100 to 125): starting
from `current_offset = 64`, for each input (raw relative path, content): the
path is normalized, a content type is guessed from the raw path, the content
is compressed, the compressed bytes are appended, a row is inserted, and
`current_offset` advances by the compressed length.  `current_offset` is a
u64, hence the reduction mod 2^64. -/
def buildGo (encode : List Nat → List Nat) (guess : String → Option String) :
    List (String × List Nat) → Nat → BuildOut
  | [], off => ⟨[], [], off⟩
  | (p, data) :: rest, off =>
    let compressed := encode data
    let row : IndexRow :=
      ⟨normalizePath p, some (mimeFor guess p), off, compressed.length, data.length⟩
    let out := buildGo encode guess rest ((off + compressed.length) % U64)
    ⟨compressed ++ out.blobs, row :: out.rows, out.indexOffset⟩

/-- The header patched in at offset 0 at the end of build_archive
(main.rs lines 136 to 147): magic, version 1, zero uuid, the final
current_offset as index_offset, the copied index length, compression type 1. -/
def builderHeader (indexOffset indexLength : Nat) : WaxHeader :=
  ⟨waxMagic, 1, List.replicate 16 0, indexOffset, indexLength, 1, List.replicate 23 0⟩

/-- The bytes of a finished archive: patched header, then the compressed
blobs, then the serialized index image.  The SQLite file serialization of the
index is opaque to the outer format, so it is passed in as an arbitrary byte
list; `index_length` is its length (the count returned by io::copy). -/
def waxFile (encode : List Nat → List Nat) (guess : String → Option String)
    (files : List (String × List Nat)) (indexBytes : List Nat) : List Nat :=
  let out := buildGo encode guess files 64
  encodeHeader (builderHeader out.indexOffset indexBytes.length) ++ out.blobs ++ indexBytes

/-- The error enum of wax-core/src/reader.rs (`WaxError`).  Note that the
enum has no DuplicatePath variant and no TruncatedArchive variant. -/
inductive WaxError where
  | ioErr : String → WaxError
  | sqlErr : String → WaxError
  | invalidMagic : WaxError
  | fileNotFound : String → WaxError
  deriving DecidableEq, Repr

deriving instance DecidableEq for Except

/-- Message of the io::ErrorKind::UnexpectedEof error a failing read_exact
produces. -/
def eofMsg : String := "failed to fill whole buffer"

/-- Message of a zstd decoding failure (surfaced as an io error). -/
def decompressMsg : String := "Unknown frame descriptor"

/-- Whether a result is the success case. -/
def isOkB {ε α : Type} : Except ε α → Bool
  | .ok _ => true
  | .error _ => false

/-- State of a successfully opened WaxReader: the archive bytes and the bytes
extracted into the reader's temporary index copy. -/
structure OpenedReader where
  fileBytes : List Nat
  indexBytes : List Nat
  deriving DecidableEq, Repr

/-- WaxReader::open (reader.rs lines 37 to 65): read_exact of 64 header bytes
(UnexpectedEof, an Io error, on a shorter file), zerocopy decode (total on a
64-byte buffer, so its error branch is dead), InvalidMagic on a magic
mismatch, then a seek to index_offset and an io::copy of a
`take(index_length)` reader into the temp index copy.  A `take` reader copies
at most that many bytes and reports no error when the file ends early;
`Connection::open` on the copy defers reading the database, so the open
itself then succeeds. -/
def wax_open (file : List Nat) : Except WaxError OpenedReader :=
  if file.length < 64 then .error (.ioErr eofMsg)
  else
    let header := decodeHeader (file.take 64)
    if header.magic = waxMagic then
      .ok ⟨file, (file.drop header.index_offset).take header.index_length⟩
    else .error .invalidMagic

/-- `SELECT ... FROM files WHERE path = ?1` through query_row(...).optional():
the first row in rowid order whose path column equals the argument, if any. -/
def findRow (rows : List IndexRow) (p : String) : Option IndexRow :=
  rows.find? fun r => r.path == p

/-- seek to `off` followed by read_exact of `len` bytes: fails with
UnexpectedEof when fewer than `len` bytes remain from `off`. -/
def readRange (file : List Nat) (off len : Nat) : Option (List Nat) :=
  let s := (file.drop off).take len
  if s.length = len then some s else none

/-- WaxReader::get_file_data (reader.rs lines 67 to 91): look up the path
(FileNotFound when absent), seek and read the compressed blob, decompress. -/
def get_file_data (decode : List Nat → Option (List Nat)) (file : List Nat)
    (rows : List IndexRow) (p : String) : Except WaxError (List Nat) :=
  match findRow rows p with
  | none => .error (.fileNotFound p)
  | some r =>
    match readRange file r.blob_offset r.blob_length with
    | none => .error (.ioErr eofMsg)
    | some compressed =>
      match decode compressed with
      | none => .error (.ioErr decompressMsg)
      | some d => .ok d

/-- WaxReader::get_mime_type (reader.rs lines 93 to 106): the optional row's
optional mime column, flattened, with the octet-stream fallback applied both
when the path is unmapped and when the stored column is NULL. -/
def get_mime_type (rows : List IndexRow) (p : String) : Except WaxError String :=
  .ok (((findRow rows p).bind IndexRow.mime_type).getD octetStream)

/-- An element of the listing returned by list_files (`WaxEntry`,
reader.rs lines 23 to 28). -/
structure WaxEntry where
  path : String
  mime_type : String
  size : Nat
  deriving DecidableEq, Repr

/-- `ORDER BY path ASC` under SQLite's BINARY collation: bytewise comparison
of the UTF-8 encodings, which on valid UTF-8 agrees with the codepoint order
of Lean's `String` order. -/
def rowLE (a b : IndexRow) : Prop := a.path ≤ b.path

instance : DecidableRel rowLE := fun a b => inferInstanceAs (Decidable (a.path ≤ b.path))

instance : IsTotal IndexRow rowLE := ⟨fun a b => le_total a.path b.path⟩

instance : IsTrans IndexRow rowLE := ⟨fun _ _ _ h h' => le_trans h h'⟩

/-- The ascending-by-path ordering of the result set. -/
def sortRows (rows : List IndexRow) : List IndexRow :=
  rows.insertionSort rowLE

/-- WaxReader::list_files (reader.rs lines 109 to 127).  A NULL mime_type
column renders as the string "unknown" here, unlike get_mime_type's
octet-stream fallback. -/
def list_files (rows : List IndexRow) : List WaxEntry :=
  (sortRows rows).map fun r => ⟨r.path, r.mime_type.getD unknownMime, r.original_size⟩

/-- Total length of the compressed blobs of a list of input files. -/
def sumLens (encode : List Nat → List Nat) (files : List (String × List Nat)) : Nat :=
  (files.map fun f => (encode f.2).length).sum

/-- The rows describe back-to-back blobs starting at byte offset `off`. -/
def contiguousFrom : Nat → List IndexRow → Prop
  | _, [] => True
  | off, r :: rs => r.blob_offset = off ∧ contiguousFrom (off + r.blob_length) rs

instance instDecidableContiguousFrom :
    ∀ (off : Nat) (rows : List IndexRow), Decidable (contiguousFrom off rows)
  | _, [] => .isTrue trivial
  | off, r :: rs =>
    letI : Decidable (contiguousFrom (off + r.blob_length) rs) :=
      instDecidableContiguousFrom _ _
    decidable_of_iff (r.blob_offset = off ∧ contiguousFrom (off + r.blob_length) rs) Iff.rfl

/-- Correspondence between an input file and the index row the builder
produced for it, relative to a blob region `bs` that starts at absolute
offset `off`: the row records the normalized path, the guessed type, the
original and compressed sizes, and its recorded range slices `bs` exactly at
the file's compressed bytes. -/
def rowMatches (encode : List Nat → List Nat) (guess : String → Option String)
    (off : Nat) (bs : List Nat) (f : String × List Nat) (r : IndexRow) : Prop :=
  r.path = normalizePath f.1 ∧
  r.mime_type = some (mimeFor guess f.1) ∧
  r.original_size = f.2.length ∧
  r.blob_length = (encode f.2).length ∧
  off ≤ r.blob_offset ∧
  r.blob_offset - off + r.blob_length ≤ bs.length ∧
  (bs.drop (r.blob_offset - off)).take r.blob_length = encode f.2

end Wax

namespace Wax

theorem drop_append_ge {α : Type} : ∀ (a b : List α) (k : Nat), a.length ≤ k →
    (a ++ b).drop k = b.drop (k - a.length)
  | [], _, _, _ => by simp
  | _ :: xs, b, k + 1, h => by
    simpa using drop_append_ge xs b k (by simpa using h)

theorem take_append_le {α : Type} : ∀ (a b : List α) (n : Nat), n ≤ a.length →
    (a ++ b).take n = a.take n
  | _, _, 0, _ => by simp
  | [], _, n + 1, h => by simp at h
  | x :: xs, b, n + 1, h => by
    simpa using take_append_le xs b n (by simpa using h)

theorem drop_append_le {α : Type} : ∀ (a b : List α) (k : Nat), k ≤ a.length →
    (a ++ b).drop k = a.drop k ++ b
  | _, _, 0, _ => by simp
  | [], _, k + 1, h => by simp at h
  | x :: xs, b, k + 1, h => by
    simpa using drop_append_le xs b k (by simpa using h)

theorem forall2_mem_left {α β : Type} {R : α → β → Prop} {l₁ : List α} {l₂ : List β}
    (h : List.Forall₂ R l₁ l₂) : ∀ {a : α}, a ∈ l₁ → ∃ b ∈ l₂, R a b := by
  induction h with
  | nil => intro a ha; cases ha
  | cons hr _ ih =>
    intro a ha
    rcases List.mem_cons.mp ha with rfl | ha
    · exact ⟨_, List.mem_cons_self _ _, hr⟩
    · obtain ⟨b, hb, hR⟩ := ih ha
      exact ⟨b, List.mem_cons_of_mem _ hb, hR⟩

theorem sumLens_cons (encode : List Nat → List Nat) (p : String) (d : List Nat)
    (rest : List (String × List Nat)) :
    sumLens encode ((p, d) :: rest) = (encode d).length + sumLens encode rest := by
  simp [sumLens]

theorem buildGo_indexOffset (encode : List Nat → List Nat) (guess : String → Option String)
    (files : List (String × List Nat)) : ∀ off : Nat, off + sumLens encode files < U64 →
    (buildGo encode guess files off).indexOffset = off + sumLens encode files := by
  induction files with
  | nil => intro off _; simp [buildGo, sumLens]
  | cons f rest ih =>
    intro off h
    obtain ⟨p, d⟩ := f
    rw [sumLens_cons] at h
    have hm : (off + (encode d).length) % U64 = off + (encode d).length :=
      Nat.mod_eq_of_lt (by omega)
    simp only [buildGo]
    rw [hm, ih (off + (encode d).length) (by omega), sumLens_cons]
    omega

theorem buildGo_blobs_length (encode : List Nat → List Nat) (guess : String → Option String)
    (files : List (String × List Nat)) : ∀ off : Nat,
    (buildGo encode guess files off).blobs.length = sumLens encode files := by
  induction files with
  | nil => intro off; simp [buildGo, sumLens]
  | cons f rest ih =>
    intro off
    obtain ⟨p, d⟩ := f
    simp only [buildGo, List.length_append, sumLens_cons, ih]

theorem buildGo_contiguous (encode : List Nat → List Nat) (guess : String → Option String)
    (files : List (String × List Nat)) : ∀ off : Nat, off + sumLens encode files < U64 →
    contiguousFrom off (buildGo encode guess files off).rows := by
  induction files with
  | nil => intro off _; simp [buildGo, contiguousFrom]
  | cons f rest ih =>
    intro off h
    obtain ⟨p, d⟩ := f
    rw [sumLens_cons] at h
    have hm : (off + (encode d).length) % U64 = off + (encode d).length :=
      Nat.mod_eq_of_lt (by omega)
    simp only [buildGo, contiguousFrom, hm]
    refine ⟨?_, ih (off + (encode d).length) (by omega)⟩
    trivial

theorem buildGo_rows_map (encode : List Nat → List Nat) (guess : String → Option String)
    (files : List (String × List Nat)) : ∀ off : Nat,
    (buildGo encode guess files off).rows.map
        (fun r => (r.path, r.mime_type, r.original_size))
      = files.map fun f => (normalizePath f.1, some (mimeFor guess f.1), f.2.length) := by
  induction files with
  | nil => intro off; simp [buildGo]
  | cons f rest ih =>
    intro off
    obtain ⟨p, d⟩ := f
    simp [buildGo, ih]

theorem rowMatches_shift (encode : List Nat → List Nat) (guess : String → Option String)
    (off : Nat) (c bs : List Nat) (f : String × List Nat) (r : IndexRow)
    (h : rowMatches encode guess (off + c.length) bs f r) :
    rowMatches encode guess off (c ++ bs) f r := by
  obtain ⟨h1, h2, h3, h4, h5, h6, h7⟩ := h
  refine ⟨h1, h2, h3, h4, by omega, by simp only [List.length_append]; omega, ?_⟩
  rw [drop_append_ge c bs _ (by omega)]
  have he : r.blob_offset - off - c.length = r.blob_offset - (off + c.length) := by omega
  rw [he]
  exact h7

theorem buildGo_forall2 (encode : List Nat → List Nat) (guess : String → Option String)
    (files : List (String × List Nat)) : ∀ off : Nat, off + sumLens encode files < U64 →
    List.Forall₂ (rowMatches encode guess off (buildGo encode guess files off).blobs)
      files (buildGo encode guess files off).rows := by
  induction files with
  | nil => intro off _; simp [buildGo]
  | cons f rest ih =>
    intro off h
    obtain ⟨p, d⟩ := f
    rw [sumLens_cons] at h
    have hm : (off + (encode d).length) % U64 = off + (encode d).length :=
      Nat.mod_eq_of_lt (by omega)
    simp only [buildGo, hm]
    refine List.Forall₂.cons ?_ ?_
    · refine ⟨rfl, rfl, rfl, rfl, le_refl _, by simp, ?_⟩
      simp only [Nat.sub_self, List.drop_zero]
      exact List.take_left' rfl
    · exact (ih (off + (encode d).length) (by omega)).imp
        fun a b hab => rowMatches_shift encode guess off (encode d) _ a b hab

theorem findRow_of_nodup : ∀ (rows : List IndexRow) (r : IndexRow), r ∈ rows →
    (rows.map IndexRow.path).Nodup → findRow rows r.path = some r
  | [], r, hmem, _ => by cases hmem
  | x :: rows, r, hmem, hnd => by
    rcases List.mem_cons.mp hmem with rfl | hmem
    · simp [findRow]
    · have hne : x.path ≠ r.path := by
        intro he
        have : r.path ∈ rows.map IndexRow.path := List.mem_map_of_mem IndexRow.path hmem
        rw [← he] at this
        exact (List.nodup_cons.mp hnd).1 this
      have : findRow rows r.path = some r :=
        findRow_of_nodup rows r hmem (List.nodup_cons.mp hnd).2
      simpa [findRow, List.find?_cons, hne] using this

theorem encodeHeader_builderHeader_length (a b : Nat) :
    (encodeHeader (builderHeader a b)).length = 64 := by
  simp [encodeHeader, builderHeader, leBytes, waxMagic]

theorem waxFile_take_64 (encode : List Nat → List Nat) (guess : String → Option String)
    (files : List (String × List Nat)) (indexBytes : List Nat) :
    (waxFile encode guess files indexBytes).take 64
      = encodeHeader (builderHeader (buildGo encode guess files 64).indexOffset
          indexBytes.length) := by
  unfold waxFile
  rw [List.append_assoc]
  exact List.take_left' (encodeHeader_builderHeader_length _ _)

theorem buildGo_mime_isSome (encode : List Nat → List Nat) (guess : String → Option String)
    (files : List (String × List Nat)) : ∀ (off : Nat) (r : IndexRow),
    r ∈ (buildGo encode guess files off).rows → ∃ s : String, r.mime_type = some s := by
  induction files with
  | nil => intro off r hr; simp [buildGo] at hr
  | cons f rest ih =>
    intro off r hr
    obtain ⟨p, d⟩ := f
    simp only [buildGo, List.mem_cons] at hr
    rcases hr with rfl | hr
    · exact ⟨mimeFor guess p, rfl⟩
    · exact ih _ r hr

theorem mem_sortRows {rows : List IndexRow} {r : IndexRow} :
    r ∈ sortRows rows ↔ r ∈ rows :=
  (List.perm_insertionSort rowLE rows).mem_iff

theorem rows_path_map (encode : List Nat → List Nat) (guess : String → Option String)
    (files : List (String × List Nat)) :
    (buildGo encode guess files 64).rows.map IndexRow.path
      = files.map fun f => normalizePath f.1 := by
  have h := congrArg (List.map Prod.fst) (buildGo_rows_map encode guess files 64)
  simpa [List.map_map, Function.comp] using h

theorem leBytes_length (w n : Nat) : (leBytes w n).length = w := by
  simp [leBytes]

theorem decodeHeader_encodeHeader_version (h : WaxHeader) (hm : h.magic.length = 4) :
    (decodeHeader (encodeHeader h)).version = leNat (leBytes 4 h.version) := by
  show leNat (((encodeHeader h).drop 4).take 4) = leNat (leBytes 4 h.version)
  unfold encodeHeader
  simp only [List.append_assoc]
  rw [List.drop_left' hm, List.take_left' (leBytes_length 4 h.version)]

theorem decodeHeader_magic_of_64 (file : List Nat) :
    (decodeHeader (file.take 64)).magic = file.take 4 := by
  show (file.take 64).take 4 = file.take 4
  simp [List.take_take]

end Wax

namespace Wax

/-- C6: for every successful build the header's index_offset equals 64 plus
the sum of the compressed blob lengths, the blob region has exactly that
total length, and the recorded rows tile [64, index_offset) back to back;
building from an empty input yields zero index rows and index_offset exactly
64.  current_offset is a u64, so the hypothesis excludes wrap-around of the
offset arithmetic. -/
theorem c6_index_offset_invariant (encode : List Nat → List Nat)
    (guess : String → Option String) (files : List (String × List Nat))
    (h : 64 + sumLens encode files < U64) :
    (buildGo encode guess files 64).indexOffset = 64 + sumLens encode files ∧
    (buildGo encode guess files 64).blobs.length = sumLens encode files ∧
    contiguousFrom 64 (buildGo encode guess files 64).rows ∧
    (buildGo encode guess [] 64).rows = [] ∧
    (buildGo encode guess [] 64).indexOffset = 64 :=
  ⟨buildGo_indexOffset encode guess files 64 h,
   buildGo_blobs_length encode guess files 64,
   buildGo_contiguous encode guess files 64 h,
   rfl, rfl⟩

/-- Witness for C6 at a concrete one-file input. -/
theorem c6_index_offset_invariant_witness :
    (buildGo (fun x => x) (fun _ => none) [(("a"), [1, 2])] 64).indexOffset
        = 64 + sumLens (fun x => x) [(("a"), [1, 2])] ∧
    (buildGo (fun x => x) (fun _ => none) [(("a"), [1, 2])] 64).blobs.length
        = sumLens (fun x => x) [(("a"), [1, 2])] ∧
    contiguousFrom 64 (buildGo (fun x => x) (fun _ => none) [(("a"), [1, 2])] 64).rows ∧
    (buildGo (fun x => x) (fun _ => none) [] 64).rows = [] ∧
    (buildGo (fun x => x) (fun _ => none) [] 64).indexOffset = 64 :=
  c6_index_offset_invariant (fun x => x) (fun _ => none) [(("a"), [1, 2])] (by decide)

/-- C10: every row the builder inserts carries a non-NULL mime_type (the
builder substitutes octet-stream at ingestion when nothing is guessed), so on
builder-produced rows the NULL-column fallback branches of get_mime_type and
list_files are never exercised: a successful point lookup returns the stored
string, and every listing entry's type equals some stored string. -/
theorem c10_mime_non_null (encode : List Nat → List Nat)
    (guess : String → Option String) (files : List (String × List Nat)) :
    (∀ r ∈ (buildGo encode guess files 64).rows, ∃ s : String, r.mime_type = some s) ∧
    (∀ (p : String) (r : IndexRow), findRow (buildGo encode guess files 64).rows p = some r →
      ∃ s : String, r.mime_type = some s ∧
        get_mime_type (buildGo encode guess files 64).rows p = .ok s) ∧
    (∀ e ∈ list_files (buildGo encode guess files 64).rows,
      ∃ r ∈ (buildGo encode guess files 64).rows, r.mime_type = some e.mime_type) := by
  refine ⟨fun r hr => buildGo_mime_isSome encode guess files 64 r hr, ?_, ?_⟩
  · intro p r hfind
    have hr : r ∈ (buildGo encode guess files 64).rows :=
      List.mem_of_find?_eq_some (by simpa [findRow] using hfind)
    obtain ⟨s, hs⟩ := buildGo_mime_isSome encode guess files 64 r hr
    exact ⟨s, hs, by simp [get_mime_type, hfind, hs]⟩
  · intro e he
    simp only [list_files, List.mem_map] at he
    obtain ⟨r, hr, rfl⟩ := he
    have hr' : r ∈ (buildGo encode guess files 64).rows := mem_sortRows.mp hr
    obtain ⟨s, hs⟩ := buildGo_mime_isSome encode guess files 64 r hr'
    exact ⟨r, hr', by simp [hs]⟩

/-- Witness for C10 at a concrete one-file input. -/
theorem c10_mime_non_null_witness :
    ∃ s : String,
      (IndexRow.mk (normalizePath ("a")) (some (mimeFor (fun _ => none) ("a"))) 64 1 1).mime_type
        = some s :=
  (c10_mime_non_null (fun x => x) (fun _ => none) [(("a"), [1])]).1 _ (by decide)

/-- C7: for a path absent from the index, get_file_data fails with
FileNotFound while get_mime_type on the same path succeeds and returns the
generic octet-stream fallback. -/
theorem c7_absent_path (decode : List Nat → Option (List Nat)) (file : List Nat)
    (rows : List IndexRow) (p : String) (habs : ∀ r ∈ rows, r.path ≠ p) :
    get_file_data decode file rows p = .error (.fileNotFound p) ∧
    get_mime_type rows p = .ok octetStream := by
  have hfind : findRow rows p = none := by
    simp only [findRow, List.find?_eq_none]
    intro r hr
    simpa using habs r hr
  exact ⟨by simp [get_file_data, hfind], by simp [get_mime_type, hfind]⟩

/-- Witness for C7 on the empty index. -/
theorem c7_absent_path_witness :
    get_file_data some [] [] ("q") = .error (.fileNotFound ("q")) ∧
    get_mime_type [] ("q") = .ok octetStream :=
  c7_absent_path some [] [] ("q") (by decide)

/-- C4 counterexample: the empty file does not begin with the signature, yet
open fails with the read_exact UnexpectedEof Io error rather than
InvalidMagic. -/
theorem c4_counterexample :
    wax_open [] = .error (.ioErr eofMsg) ∧
    wax_open [] ≠ .error .invalidMagic := by decide

/-- C4 (amended): for every input file that does not begin with the 4-byte
signature, open fails — with InvalidMagic when the file holds at least 64
bytes, but with the read_exact UnexpectedEof Io error when it is shorter than
64 bytes (including the empty file). -/
theorem c4_invalid_magic (file : List Nat) (h : file.take 4 ≠ waxMagic) :
    wax_open file = if file.length < 64 then .error (.ioErr eofMsg)
      else .error .invalidMagic := by
  have hm : (decodeHeader (file.take 64)).magic = file.take 4 :=
    decodeHeader_magic_of_64 file
  by_cases h64 : file.length < 64
  · simp [wax_open, h64]
  · simp [wax_open, h64, hm, h]

/-- Witness for C4 on a 64-byte zero file. -/
theorem c4_invalid_magic_witness :
    wax_open (List.replicate 64 5)
      = if (List.replicate 64 5 : List Nat).length < 64 then .error (.ioErr eofMsg)
        else .error .invalidMagic :=
  c4_invalid_magic (List.replicate 64 5) (by decide)

/-- C3 counterexample: a valid-magic 64-byte file declaring index_offset 64
and index_length 100 — so index_offset + index_length exceeds the file length
— opens successfully with an empty index copy instead of failing; `WaxError`
has no TruncatedArchive variant at all. -/
theorem c3_counterexample :
    (encodeHeader (builderHeader 64 100)).length < 64 + 100 ∧
    wax_open (encodeHeader (builderHeader 64 100))
      = .ok ⟨encodeHeader (builderHeader 64 100), []⟩ := by decide

/-- C3 (amended): WaxReader::open performs no truncation check: on any file
of at least 64 bytes that begins with the signature it succeeds, extracting
min(index_length, file length - index_offset) bytes into the index copy — on
an archive truncated below index_offset + index_length this is fewer than the
declared index_length bytes, and the reader is returned anyway. -/
theorem c3_no_truncation_check (file : List Nat) (h64 : 64 ≤ file.length)
    (hmagic : file.take 4 = waxMagic) :
    wax_open file = .ok ⟨file,
        (file.drop (decodeHeader (file.take 64)).index_offset).take
          (decodeHeader (file.take 64)).index_length⟩ ∧
    ((file.drop (decodeHeader (file.take 64)).index_offset).take
        (decodeHeader (file.take 64)).index_length).length
      = min (decodeHeader (file.take 64)).index_length
          (file.length - (decodeHeader (file.take 64)).index_offset) := by
  have hm : (decodeHeader (file.take 64)).magic = waxMagic := by
    rw [decodeHeader_magic_of_64]
    exact hmagic
  constructor
  · simp only [wax_open]
    rw [if_neg (by omega), if_pos hm]
  · simp [List.length_take, List.length_drop]

/-- Witness for C3 on a concrete truncated archive (declared index_length 3,
only 2 bytes present after the header). -/
theorem c3_no_truncation_check_witness :
    wax_open (encodeHeader (builderHeader 64 3) ++ [7, 8])
      = .ok ⟨encodeHeader (builderHeader 64 3) ++ [7, 8],
          ((encodeHeader (builderHeader 64 3) ++ [7, 8]).drop
              (decodeHeader ((encodeHeader (builderHeader 64 3) ++ [7, 8]).take 64)).index_offset).take
            (decodeHeader ((encodeHeader (builderHeader 64 3) ++ [7, 8]).take 64)).index_length⟩ ∧
    (((encodeHeader (builderHeader 64 3) ++ [7, 8]).drop
        (decodeHeader ((encodeHeader (builderHeader 64 3) ++ [7, 8]).take 64)).index_offset).take
      (decodeHeader ((encodeHeader (builderHeader 64 3) ++ [7, 8]).take 64)).index_length).length
      = min (decodeHeader ((encodeHeader (builderHeader 64 3) ++ [7, 8]).take 64)).index_length
          ((encodeHeader (builderHeader 64 3) ++ [7, 8]).length -
            (decodeHeader ((encodeHeader (builderHeader 64 3) ++ [7, 8]).take 64)).index_offset) :=
  c3_no_truncation_check (encodeHeader (builderHeader 64 3) ++ [7, 8]) (by decide) (by decide)

/-- C9 counterexample: a 64-byte file with a valid magic and version 2 opens
successfully — the reader never validates the version field. -/
theorem c9_counterexample :
    (decodeHeader (encodeHeader (WaxHeader.mk waxMagic 2 (List.replicate 16 0) 0 0 1
        (List.replicate 23 0)))).version = 2 ∧
    isOkB (wax_open (encodeHeader (WaxHeader.mk waxMagic 2 (List.replicate 16 0) 0 0 1
        (List.replicate 23 0)))) = true := by decide

/-- C9 (amended): the builder stamps header version 1 (both in the header
record and in the emitted header bytes), but WaxReader::open never inspects
the version field: it accepts a file with any version value as long as the
magic matches and at least 64 bytes are present. -/
theorem c9_version (encode : List Nat → List Nat) (guess : String → Option String)
    (files : List (String × List Nat)) (indexBytes : List Nat) :
    (builderHeader (buildGo encode guess files 64).indexOffset indexBytes.length).version = 1 ∧
    (decodeHeader ((waxFile encode guess files indexBytes).take 64)).version = 1 ∧
    ∀ file : List Nat, 64 ≤ file.length → file.take 4 = waxMagic →
      isOkB (wax_open file) = true := by
  refine ⟨rfl, ?_, ?_⟩
  · rw [waxFile_take_64, decodeHeader_encodeHeader_version
      (builderHeader (buildGo encode guess files 64).indexOffset indexBytes.length) rfl]
    show leNat (leBytes 4 1) = 1
    decide
  · intro file h64 hmagic
    have hm : (decodeHeader (file.take 64)).magic = waxMagic := by
      rw [decodeHeader_magic_of_64]
      exact hmagic
    simp only [wax_open]
    rw [if_neg (by omega), if_pos hm]
    rfl

/-- Witness for C9 at a concrete empty build and a concrete version-7 file. -/
theorem c9_version_witness :
    (builderHeader (buildGo (fun x => x) (fun _ => none) [] 64).indexOffset
        (List.length ([] : List Nat))).version = 1 ∧
    isOkB (wax_open (encodeHeader (WaxHeader.mk waxMagic 7 (List.replicate 16 0) 0 0 1
        (List.replicate 23 0)))) = true :=
  ⟨(c9_version (fun x => x) (fun _ => none) [] []).1,
   (c9_version (fun x => x) (fun _ => none) [] []).2.2
     (encodeHeader (WaxHeader.mk waxMagic 7 (List.replicate 16 0) 0 0 1 (List.replicate 23 0)))
     (by decide) (by decide)⟩

/-- C2 counterexample: two inputs whose raw relative paths normalize to the
same string are both inserted — the build completes and the index holds two
rows with an identical path, rather than failing (no DuplicatePath error
exists anywhere in the code). -/
theorem c2_counterexample :
    normalizePath ("a\\b") = normalizePath ("a/b") ∧
    (buildGo (fun x => x) (fun _ => none) [(("a\\b"), [1]), (("a/b"), [2])] 64).rows.map
        IndexRow.path
      = [normalizePath ("a/b"), normalizePath ("a/b")] := by decide

/-- C2 (amended): the files table has no uniqueness constraint on path and no
DuplicatePath error exists; building two inputs whose raw paths normalize to
the same string succeeds, inserting both rows, and a point lookup then serves
the first-inserted row. -/
theorem c2_duplicate_paths (encode : List Nat → List Nat)
    (guess : String → Option String) (p1 p2 : String) (d1 d2 : List Nat)
    (h : normalizePath p1 = normalizePath p2) :
    (buildGo encode guess [(p1, d1), (p2, d2)] 64).rows.map IndexRow.path
      = [normalizePath p1, normalizePath p1] ∧
    (buildGo encode guess [(p1, d1), (p2, d2)] 64).rows.length = 2 ∧
    findRow (buildGo encode guess [(p1, d1), (p2, d2)] 64).rows (normalizePath p1)
      = some (IndexRow.mk (normalizePath p1) (some (mimeFor guess p1)) 64
          (encode d1).length d1.length) := by
  refine ⟨by simp [buildGo, h], by simp [buildGo], ?_⟩
  simp [buildGo, findRow, List.find?_cons]

/-- Witness for C2 at concrete colliding inputs. -/
theorem c2_duplicate_paths_witness :
    (buildGo (fun x => x) (fun _ => none) [(("x\\y"), [5]), (("x/y"), [6])] 64).rows.map
        IndexRow.path
      = [normalizePath ("x\\y"), normalizePath ("x\\y")] ∧
    (buildGo (fun x => x) (fun _ => none) [(("x\\y"), [5]), (("x/y"), [6])] 64).rows.length = 2 ∧
    findRow (buildGo (fun x => x) (fun _ => none) [(("x\\y"), [5]), (("x/y"), [6])] 64).rows
        (normalizePath ("x\\y"))
      = some (IndexRow.mk (normalizePath ("x\\y")) (some (mimeFor (fun _ => none) ("x\\y"))) 64
          1 1) :=
  c2_duplicate_paths (fun x => x) (fun _ => none) ("x\\y") ("x/y") [5] [6] (by decide)

/-- C8 counterexample: an entry with an absent content type and an entry with
the stored type octet-stream render identically through get_mime_type but not
through list_files, which shows the absent type as the string "unknown". -/
theorem c8_counterexample :
    get_mime_type [IndexRow.mk ("p") none 64 1 1] ("p")
      = get_mime_type [IndexRow.mk ("p") (some octetStream) 64 1 1] ("p") ∧
    list_files [IndexRow.mk ("p") none 64 1 1]
      ≠ list_files [IndexRow.mk ("p") (some octetStream) 64 1 1] := by decide

/-- C8 (amended): get_mime_type renders an absent content type identically to
a stored octet-stream type (both as octet-stream), but list_files renders an
absent type as the string "unknown", distinguishable from a stored
octet-stream type. -/
theorem c8_mime_rendering (p : String) (off len sz : Nat) :
    get_mime_type [IndexRow.mk p none off len sz] p = .ok octetStream ∧
    get_mime_type [IndexRow.mk p (some octetStream) off len sz] p = .ok octetStream ∧
    list_files [IndexRow.mk p none off len sz] = [WaxEntry.mk p unknownMime sz] ∧
    list_files [IndexRow.mk p (some octetStream) off len sz]
      = [WaxEntry.mk p octetStream sz] := by
  refine ⟨?_, ?_, ?_, ?_⟩ <;>
    simp [get_mime_type, findRow, list_files, sortRows, List.insertionSort]

end Wax

namespace Wax

/-- C1: round-trip.  For input files whose normalized relative paths are
pairwise distinct (a set of files keyed by path; colliding paths are the C2
scenario) and whose compressed sizes do not overflow the u64 offset, building
the archive and then calling get_file_data on each stored path returns
exactly that file's original bytes, for any codec with
decode (encode x) = x — empty and arbitrary binary contents included. -/
theorem c1_roundtrip (encode : List Nat → List Nat)
    (decode : List Nat → Option (List Nat)) (guess : String → Option String)
    (files : List (String × List Nat)) (indexBytes : List Nat)
    (hdec : ∀ x : List Nat, decode (encode x) = some x)
    (hnodup : (files.map fun f => normalizePath f.1).Nodup)
    (hfit : 64 + sumLens encode files < U64) :
    ∀ f ∈ files,
      get_file_data decode (waxFile encode guess files indexBytes)
        (buildGo encode guess files 64).rows (normalizePath f.1) = .ok f.2 := by
  intro f hf
  obtain ⟨r, hr, hmatch⟩ :=
    forall2_mem_left (buildGo_forall2 encode guess files 64 hfit) hf
  obtain ⟨hpath, hmime, hsize, hlen, hoff, hinside, hslice⟩ := hmatch
  have hnd : ((buildGo encode guess files 64).rows.map IndexRow.path).Nodup := by
    rw [rows_path_map]
    exact hnodup
  have hfind : findRow (buildGo encode guess files 64).rows (normalizePath f.1) = some r := by
    rw [← hpath]
    exact findRow_of_nodup _ r hr hnd
  have hblob : ((waxFile encode guess files indexBytes).drop r.blob_offset).take r.blob_length
      = encode f.2 := by
    unfold waxFile
    rw [List.append_assoc,
        drop_append_ge _ _ r.blob_offset
          (by rw [encodeHeader_builderHeader_length]; exact hoff),
        encodeHeader_builderHeader_length,
        drop_append_le _ _ _ (by omega),
        take_append_le _ _ _ (by simp only [List.length_drop]; omega)]
    exact hslice
  have hread : readRange (waxFile encode guess files indexBytes) r.blob_offset r.blob_length
      = some (encode f.2) := by
    simp only [readRange]
    rw [hblob, hlen]
    simp
  simp only [get_file_data, hfind, hread, hdec]

/-- Witness for C1 at a concrete two-file input with one empty file. -/
theorem c1_roundtrip_witness :
    get_file_data some (waxFile (fun x => x) (fun _ => none) [(("a"), [1, 2]), (("b"), [])] [9])
        (buildGo (fun x => x) (fun _ => none) [(("a"), [1, 2]), (("b"), [])] 64).rows
        (normalizePath ("b")) = .ok ([] : List Nat) :=
  c1_roundtrip (fun x => x) some (fun _ => none) [(("a"), [1, 2]), (("b"), [])] [9]
    (fun _ => rfl) (by decide) (by decide) (("b"), ([] : List Nat)) (by decide)

/-- C5: list_files on a freshly built archive whose normalized paths are
pairwise distinct returns every input path exactly once (a permutation of the
input paths, with no duplicates), in ascending path order, and each entry's
size is the source file's original uncompressed byte length (never the
compressed length). -/
theorem c5_list_files (encode : List Nat → List Nat) (guess : String → Option String)
    (files : List (String × List Nat))
    (hnodup : (files.map fun f => normalizePath f.1).Nodup) :
    ((list_files (buildGo encode guess files 64).rows).map WaxEntry.path).Perm
        (files.map fun f => normalizePath f.1) ∧
    ((list_files (buildGo encode guess files 64).rows).map WaxEntry.path).Nodup ∧
    List.Sorted (· ≤ ·) ((list_files (buildGo encode guess files 64).rows).map WaxEntry.path) ∧
    ∀ e ∈ list_files (buildGo encode guess files 64).rows, ∃ f ∈ files,
      e.path = normalizePath f.1 ∧ e.size = f.2.length := by
  have hmapP : (list_files (buildGo encode guess files 64).rows).map WaxEntry.path
      = (sortRows (buildGo encode guess files 64).rows).map IndexRow.path := by
    simp [list_files, List.map_map, Function.comp]
  have hperm : ((list_files (buildGo encode guess files 64).rows).map WaxEntry.path).Perm
      (files.map fun f => normalizePath f.1) := by
    rw [hmapP, ← rows_path_map encode guess files]
    exact (List.perm_insertionSort rowLE _).map IndexRow.path
  refine ⟨hperm, hperm.nodup_iff.mpr hnodup, ?_, ?_⟩
  · rw [hmapP]
    exact List.Pairwise.map IndexRow.path (fun a b h => h)
      (List.sorted_insertionSort rowLE (buildGo encode guess files 64).rows)
  · intro e he
    simp only [list_files, List.mem_map] at he
    obtain ⟨r, hr, rfl⟩ := he
    have hr' : r ∈ (buildGo encode guess files 64).rows := mem_sortRows.mp hr
    have hmem : (r.path, r.mime_type, r.original_size)
        ∈ (buildGo encode guess files 64).rows.map
            fun r => (r.path, r.mime_type, r.original_size) :=
      List.mem_map_of_mem _ hr'
    rw [buildGo_rows_map] at hmem
    obtain ⟨f, hf, heq⟩ := List.mem_map.mp hmem
    simp only [Prod.mk.injEq] at heq
    exact ⟨f, hf, heq.1.symm, heq.2.2.symm⟩

/-- Witness for C5 at a concrete two-file input given in descending path
order. -/
theorem c5_list_files_witness :
    ((list_files (buildGo (fun x => x) (fun _ => none)
          [(("b"), [1]), (("a"), [2, 3])] 64).rows).map WaxEntry.path).Perm
        ([(("b"), [1]), (("a"), [2, 3])].map fun f => normalizePath f.1) ∧
    ((list_files (buildGo (fun x => x) (fun _ => none)
          [(("b"), [1]), (("a"), [2, 3])] 64).rows).map WaxEntry.path).Nodup ∧
    List.Sorted (· ≤ ·)
      ((list_files (buildGo (fun x => x) (fun _ => none)
          [(("b"), [1]), (("a"), [2, 3])] 64).rows).map WaxEntry.path) ∧
    ∀ e ∈ list_files (buildGo (fun x => x) (fun _ => none)
          [(("b"), [1]), (("a"), [2, 3])] 64).rows,
      ∃ f ∈ [(("b"), [1]), (("a"), [2, 3])], e.path = normalizePath f.1 ∧ e.size = f.2.length :=
  c5_list_files (fun x => x) (fun _ => none) [(("b"), [1]), (("a"), [2, 3])] (by decide)

end Wax
